import Mathlib

/-!
Verification of the dynamic options-dictionary core (`optionsdict.py`):
the `OptionsDict` container with lazily evaluated function-valued
entries, the name-concatenating merge (`__add__` / `__radd__`), the
`CallableEntry` opaque wrapper, `create_sequence`, and the
`expand_template` substitution loop.

Python values stored in an `OptionsDict` are modelled by the inductive
`Value`.  User-supplied dynamic entries (plain Python functions of the
owning dict) are modelled by the constructor `funcV r`, the constant
function `fun d => r`; this family is enough to exercise every branch
of `OptionsDict.__getitem__`, which only inspects whether a stored
value `isinstance(value, FunctionType)` and whether the call result is
again such a value.  Functions wrapped in `CallableEntry` are modelled
by the small deep embedding `CallFn` together with its evaluator
`evalCallFn` (covering the constant functions and the two-argument
`lambda a, b=1: a + b` exercised by the repository's test-suite).
Python string formatting and `string.Template` substitution are
embedded character-by-character, following the CPython semantics for
the fragments the code relies on (identifier tokens `[_a-z][_a-z0-9]*`
case-insensitively, `$$` escapes, `$\x7bname\x7d` braced tokens, and
zero-padding format specs).  `repr` of a function value, which Python
renders with a memory address, is modelled by a fixed placeholder
string; no claim observes it.
-/

deriving instance DecidableEq for Except

namespace Opiter

/-- Deep embedding of the user functions wrapped in `CallableEntry`
(`self.function`): constant functions and the test-suite's
`lambda a, b=1: a + b`. -/
inductive CallFn where
  | constIntFn (n : Int)
  | constStrFn (s : String)
  | addBDefault
deriving DecidableEq

/-- A Python value stored in an `OptionsDict`.  `funcV r` models a
`FunctionType` value `lambda d: r` (a dynamic entry); `callableV f`
models a `CallableEntry` instance wrapping `f` (an ordinary object,
not a `FunctionType`). -/
inductive Value where
  | intV (n : Int)
  | strV (s : String)
  | funcV (r : Value)
  | callableV (f : CallFn)
deriving DecidableEq

/-- `isinstance(value, FunctionType)` on a stored value. -/
def isFunctionType : Value → Bool
  | .funcV _ => true
  | _ => false

/-- The entry mapping of a dict: an association list of string keys to
values (Python dict keys are unique; statements that need uniqueness
carry a `Nodup` hypothesis on the key list). -/
abbrev Entries := List (String × Value)

/-- Raw `dict.__getitem__`-style lookup on the entry list: first match. -/
def alistGet : Entries → String → Option Value
  | [], _ => none
  | (k, v) :: rest, key => if k = key then some v else alistGet rest key

/-- `dict.__setitem__` on the entry list: replace the first binding of
the key, or append a new binding at the end (Python insertion order). -/
def alistSet : Entries → String → Value → Entries
  | [], key, v => [(key, v)]
  | (k, w) :: rest, key, v =>
      if k = key then (k, v) :: rest else (k, w) :: alistSet rest key v

/-- `dict.update`: fold the right operand's bindings into the left one,
later bindings overwriting earlier ones. -/
def dictUpdate (a : Entries) : Entries → Entries
  | [] => a
  | kv :: rest => dictUpdate (alistSet a kv.1 kv.2) rest

/-- First-match-wins choice on optional lookup results. -/
def optOr (x y : Option Value) : Option Value :=
  match x with
  | some v => some v
  | none => y

/-- The dynamic associative container of `optionsdict.py`: a name plus
an entry mapping (`OptionsDict(dict)` with the extra `name` field). -/
structure OptionsDict where
  name : String
  entries : Entries
deriving DecidableEq

/-- `OptionsDict.__str__`: the name. -/
def odStr (d : OptionsDict) : String := d.name

/-- `OptionsDict.__iter__`: `yield self` — iteration produces the dict
itself, once. -/
def odIter (d : OptionsDict) : List OptionsDict := [d]

/-- `OptionsDict.__getitem__`: fetch the stored value; if it is a
`FunctionType` (a dynamic entry `funcV r`, i.e. `lambda d: r`), invoke
it once with the dict itself (`value(self)`, yielding `r`) and return
that result directly; any other value (including a `CallableEntry`) is
returned as stored.  An absent key is a `KeyError`, modelled as
`none`. -/
def getItem (d : OptionsDict) (key : String) : Option Value :=
  match alistGet d.entries key with
  | none => none
  | some (.funcV r) => some r
  | some v => some v

/-- The module-level `name_separator` default. -/
def name_separator : String := "_"

/-- `OptionsDict.__add__` generalised over the right operand's string
form and entry mapping (the code only uses `str(other)` and
`result.update(other)`): the new name joins the two string forms with
`name_separator` when both are non-empty (`all(names)`) and
concatenates them otherwise; the new entries are the left operand's
entries updated by the right operand's. -/
def addOther (d : OptionsDict) (otherStr : String) (otherEntries : Entries) :
    OptionsDict :=
  let newName :=
    if d.name ≠ "" ∧ otherStr ≠ "" then d.name ++ name_separator ++ otherStr
    else d.name ++ otherStr
  ⟨newName, dictUpdate d.entries otherEntries⟩

/-- `OptionsDict.__add__` on two dicts (`combine`). -/
def pyAdd (a b : OptionsDict) : OptionsDict :=
  addOther a b.name b.entries

/-- A possible left operand of `other + dict`, reaching
`OptionsDict.__radd__`: an integer, `None`, or a plain Python dict. -/
inductive RaddArg where
  | intR (n : Int)
  | noneR
  | dictR (l : Entries)
deriving DecidableEq

/-- Python truthiness of a `__radd__` left operand (`if not other`). -/
def raddTruthy : RaddArg → Bool
  | .intR n => n ≠ 0
  | .noneR => false
  | .dictR l => l ≠ []

/-- Python `repr` of a stored value, as used by `str` on a plain dict.
Function and wrapper objects print with a memory address in Python;
that address is elided here as a fixed placeholder. -/
def pyReprValue : Value → String
  | .intV n => toString n
  | .strV s => String.singleton (Char.ofNat 39) ++ s ++ String.singleton (Char.ofNat 39)
  | .funcV _ => "<function>"
  | .callableV _ => "<CallableEntry>"

/-- Python `str` of a plain dict literal, e.g. `\x7b'k': 1\x7d`. -/
def pyStrDict (l : Entries) : String :=
  "\x7b" ++
    String.intercalate (", ")
      (l.map (fun kv =>
        String.singleton (Char.ofNat 39) ++ kv.1 ++
          String.singleton (Char.ofNat 39) ++ (": ") ++ pyReprValue kv.2)) ++
  "\x7d"

/-- The runtime error raised by `result.update(other)` when `other` is
not iterable (a truthy integer left operand). -/
inductive PyError where
  | typeError
deriving DecidableEq

/-- `OptionsDict.__radd__`: a falsy left operand returns the dict
itself; a truthy one is handed to `self + other`, i.e. the ordinary
merge `addOther` with `str(other)` as the other name (for a truthy
integer, `dict.update` then raises `TypeError`). -/
def pyRadd (other : RaddArg) (d : OptionsDict) : Except PyError OptionsDict :=
  if raddTruthy other then
    match other with
    | .dictR l => .ok (addOther d (pyStrDict l) l)
    | .intR _ => .error .typeError
    | .noneR => .error .typeError
  else
    .ok d

/-- Accumulator of Python `sum(list_of_dicts)`: the starting `0`, or an
`OptionsDict` once the first addition has gone through `__radd__`. -/
inductive SumAcc where
  | zeroS
  | odS (d : OptionsDict)
deriving DecidableEq

/-- One step of Python `sum` over dicts: `0 + d` falls back to
`d.__radd__(0)` which returns `d`; afterwards `a + d` is
`OptionsDict.__add__`. -/
def sumStep : SumAcc → OptionsDict → SumAcc
  | .zeroS, d => .odS d
  | .odS a, d => .odS (pyAdd a d)

/-- Python `sum(ds)` (start value `0`) over a list of dicts. -/
def pySum (ds : List OptionsDict) : SumAcc :=
  ds.foldl sumStep .zeroS

/-- The `name` argument of `OptionsDict.__init__`: `None`, a string, or
some other Python value (an integer representative). -/
inductive NameArg where
  | noneN
  | strN (s : String)
  | intN (n : Int)
deriving DecidableEq

/-- Python falsiness of the `name` argument (`if not name`). -/
def nameFalsy : NameArg → Bool
  | .noneN => true
  | .strN s => s = ""
  | .intN n => n = 0

/-- `str(name)`: every `NameArg` is string-coercible in Python. -/
def pyStrNameArg : NameArg → String
  | .noneN => "None"
  | .strN s => s
  | .intN n => toString n

/-- The `entries` argument of `OptionsDict.__init__`: a dict, or some
other Python value (a string representative, as in the test-suite). -/
inductive EntriesArg where
  | dictE (l : Entries)
  | strE (s : String)
deriving DecidableEq

/-- `OptionsDictException`, carrying its message. -/
structure ODException where
  msg : String
deriving DecidableEq

/-- `OptionsDict.__init__`: a falsy name is replaced by the empty
string; a truthy non-string name raises; then non-dict entries raise;
otherwise the dict stores the name and the entries. -/
def odConstruct (name : NameArg) (entries : EntriesArg) :
    Except ODException OptionsDict :=
  match (if nameFalsy name then some ("")
         else match name with
              | .strN s => some s
              | _ => none) with
  | none => .error ⟨"name argument must be a string (or None)."⟩
  | some nm =>
    match entries with
    | .dictE l => .ok ⟨nm, l⟩
    | _ => .error ⟨"entries argument must be a dictionary."⟩

/-- Semantics of a wrapped user function applied to positional and
keyword arguments (`none` models a Python argument-mismatch error):
the constant functions ignore their arguments, and `addBDefault` is
`lambda a, b=1: a + b`. -/
def evalCallFn (f : CallFn) (args : List Value)
    (kwargs : List (String × Value)) : Option Value :=
  match f, args, kwargs with
  | .constIntFn n, _, _ => some (.intV n)
  | .constStrFn s, _, _ => some (.strV s)
  | .addBDefault, [.intV a], [] => some (.intV (a + 1))
  | .addBDefault, [.intV a], [(kb, .intV b)] =>
      if kb = "b" then some (.intV (a + b)) else none
  | .addBDefault, [.intV a, .intV b], [] => some (.intV (a + b))
  | .addBDefault, _, _ => none

/-- `CallableEntry.__call__`: apply the wrapped function to exactly the
given positional and keyword arguments
(`return self.function(*args, **kwargs)`). -/
def callableCall (f : CallFn) (args : List Value)
    (kwargs : List (String × Value)) : Option Value :=
  evalCallFn f args kwargs

/-- The opening-brace character of a Python format field. -/
def braceOpen : Char := Char.ofNat 123

/-- The closing-brace character of a Python format field. -/
def braceClose : Char := Char.ofNat 125

/-- An element passed to `create_sequence`: an existing `OptionsDict`,
or a literal (integer or string representative). -/
inductive SeqElem where
  | odSE (d : OptionsDict)
  | intSE (n : Int)
  | strSE (s : String)
deriving DecidableEq

/-- Whether the element `isinstance(el, OptionsDict)`. -/
def isOD : SeqElem → Bool
  | .odSE _ => true
  | _ => false

/-- Python `str` of a sequence element (for a dict, its name). -/
def pyStrElem : SeqElem → String
  | .odSE d => d.name
  | .intSE n => toString n
  | .strSE s => s

/-- The stored `Value` of a literal element (the original value, not
its string form). -/
def elemValue : SeqElem → Value
  | .odSE d => .strV d.name
  | .intSE n => .intV n
  | .strSE s => .strV s

/-- Parse decimal digits as a natural number (format-spec width). -/
def digitsToNat (l : List Char) : Nat :=
  l.foldl (fun acc c => acc * 10 + (c.toNat - 48)) 0

/-- Left-pad a string with zeros to the given width (Python format
specs of the shape `0N`). -/
def padZeroTo (w : Nat) (s : String) : String :=
  if s.length < w then String.mk (List.replicate (w - s.length) ('0')) ++ s
  else s

/-- Split a format template at its first `\x7b...\x7d` field:
`(before, field, after)`. -/
def splitField : List Char → Option (List Char × List Char × List Char)
  | [] => none
  | c :: cs =>
    if c = braceOpen then
      match cs.dropWhile (fun x => x ≠ braceClose) with
      | [] => none
      | _ :: rest => some ([], cs.takeWhile (fun x => x ≠ braceClose), rest)
    else
      match splitField cs with
      | none => none
      | some (pre, field, post) => some (c :: pre, field, post)

/-- Render one format field for the element: an empty spec is `str`,
and a `0N` spec zero-pads `str` to width `N` (the format-spec subset
the repository uses, e.g. `\x7b:02\x7d`). -/
def fieldFormat (field : List Char) (el : SeqElem) : String :=
  let spec :=
    if field.contains (':') then (field.dropWhile (fun x => x ≠ ':')).tail
    else []
  match spec with
  | '0' :: ws => padZeroTo (digitsToNat ws) (pyStrElem el)
  | _ => pyStrElem el

/-- `name_format.format(el)` for a format-template string with a single
field, e.g. `"A\x7b:02\x7d".format(2) = "A02"`. -/
def applyTemplate (tmpl : String) (el : SeqElem) : String :=
  match splitField tmpl.data with
  | some (pre, field, post) => String.mk pre ++ fieldFormat field el ++ String.mk post
  | none => tmpl

/-- The `name_format` argument of `create_sequence`: a Python callable
(`name_format(el)` succeeds), a format-template string
(`name_format(el)` raises `TypeError`, `name_format.format(el)`
succeeds), or a value that is neither, such as `None`
(`TypeError` then `AttributeError`). -/
inductive NameFormat where
  | callableF (f : SeqElem → String)
  | templateF (s : String)
  | badF

/-- Whether `name_format` is callable or a usable format template. -/
def fmtValid : NameFormat → Bool
  | .badF => false
  | _ => true

/-- The name `create_sequence` gives a synthesized dict: `name_format`
applied to the element. -/
def applyNameFormat : NameFormat → SeqElem → String
  | .callableF f, el => f el
  | .templateF s, el => applyTemplate s el
  | .badF, _ => ""

/-- The per-element conversion of `create_sequence`, before
`common_entries` is merged: an existing `OptionsDict` is copied and
updated with `\x7bsequence_key: str(el)\x7d`; a literal element yields
`OptionsDict(name_format(el), \x7bsequence_key: el\x7d)`, raising
`OptionsDictException` when `name_format` is neither callable nor a
format string. -/
def seqElemToOD (key : String) (fmt : NameFormat) (el : SeqElem) :
    Except ODException OptionsDict :=
  match el with
  | .odSE e => .ok ⟨e.name, alistSet e.entries key (.strV e.name)⟩
  | _ =>
    match fmt with
    | .callableF f => .ok ⟨f el, [(key, elemValue el)]⟩
    | .templateF s => .ok ⟨applyTemplate s el, [(key, elemValue el)]⟩
    | .badF =>
        .error ⟨"name_formatter must be a callable or a format string."⟩

/-- One iteration of the `create_sequence` loop: convert the element,
then check `common_entries` is a dict (the check sits inside the loop
body) and merge it with `od.update(common_entries)`. -/
def seqStep (key : String) (common : EntriesArg) (fmt : NameFormat)
    (el : SeqElem) : Except ODException OptionsDict :=
  match seqElemToOD key fmt el with
  | .error e => .error e
  | .ok od =>
    match common with
    | .dictE l => .ok ⟨od.name, dictUpdate od.entries l⟩
    | _ => .error ⟨"common_entries argument must be a dictionary."⟩

/-- `create_sequence(sequence_key, elements, common_entries,
name_format)`: run the loop over the elements, collecting the
converted dicts and propagating the first raised exception.  With no
elements the loop body — including its argument checks — never runs. -/
def create_sequence (key : String) (elements : List SeqElem)
    (common : EntriesArg) (fmt : NameFormat) :
    Except ODException (List OptionsDict) :=
  match elements with
  | [] => .ok []
  | el :: rest =>
    match seqStep key common fmt el with
    | .error e => .error e
    | .ok od =>
      match create_sequence key rest common fmt with
      | .error e => .error e
      | .ok l => .ok (od :: l)

/-- Python `str` of a stored value, as interpolated by
`Template.safe_substitute` (`'%s' % value` after the dict lookup).
Function objects print with a memory address, elided here. -/
def pyStrValue : Value → String
  | .intV n => toString n
  | .strV s => s
  | .funcV _ => "<function>"
  | .callableV _ => "<CallableEntry>"

/-- First character of a `string.Template` identifier:
`[_a-z]` with `IGNORECASE`. -/
def isIdStart (c : Char) : Bool := c.isAlpha || c = '_'

/-- Subsequent character of a `string.Template` identifier:
`[_a-z0-9]` with `IGNORECASE`. -/
def isIdChar (c : Char) : Bool := c.isAlphanum || c = '_'

/-- Replacement text for a named token: the looked-up value's string
form when the key resolves (the mapping is the dict itself, so the
lookup goes through `__getitem__`), and the token verbatim on
`KeyError` (`safe_substitute`). -/
def tokenNamed (d : OptionsDict) (id : List Char) : List Char :=
  match getItem d (String.mk id) with
  | some v => (pyStrValue v).data
  | none => '$' :: id

/-- Replacement text for a braced token `$\x7bid\x7d`: as `tokenNamed`,
with the braces kept in the verbatim case. -/
def tokenBraced (d : OptionsDict) (id : List Char) : List Char :=
  match getItem d (String.mk id) with
  | some v => (pyStrValue v).data
  | none => '$' :: braceOpen :: (id ++ [braceClose])

/-- One `Template(s).safe_substitute(self)` pass, character by
character: `$$` becomes `$`; `$id` and `$\x7bid\x7d` tokens are
replaced via `tokenNamed`/`tokenBraced`; a `$` starting no valid token
is left in place and scanning resumes right after it. -/
def subChars (d : OptionsDict) : List Char → List Char
  | [] => []
  | c :: cs =>
    if c = '$' then
      match cs with
      | [] => ['$']
      | c2 :: cs2 =>
        if c2 = '$' then '$' :: subChars d cs2
        else if c2 = braceOpen then
          let body := cs2.takeWhile isIdChar
          let rem := cs2.dropWhile isIdChar
          if body ≠ [] ∧ isIdStart (body.headD (' ')) ∧
              rem.head? = some braceClose then
            tokenBraced d body ++ subChars d rem.tail
          else
            '$' :: subChars d (c2 :: cs2)
        else if isIdStart c2 then
          tokenNamed d (c2 :: cs2.takeWhile isIdChar) ++
            subChars d (cs2.dropWhile isIdChar)
        else
          '$' :: subChars d (c2 :: cs2)
    else
      c :: subChars d cs
termination_by l => l.length
decreasing_by
  all_goals simp_all [List.length_cons]
  all_goals
    first
    | omega
    | (have h1 : (List.dropWhile isIdChar rest).length ≤ rest.length :=
        (List.dropWhile_suffix isIdChar).sublist.length_le
       omega)

/-- `Template(buffer_string).safe_substitute(self)` as a string-level
operation. -/
def safeSubstitute (d : OptionsDict) (s : String) : String :=
  String.mk (subChars d s.data)

/-- The loop guard `'$' in buffer_string`. -/
def hasDollar (s : String) : Bool := s.data.contains ('$')

/-- The module-level `template_expansion_max_loops` default. -/
def template_expansion_max_loops : Nat := 5

/-- The `while` loop of `OptionsDict.expand_template`, returning the
final buffer together with the number of substitution passes
performed: while the buffer contains `$` and fewer than the given
number of passes have run, substitute once and continue. -/
def expandLoop (d : OptionsDict) (s : String) : Nat → String × Nat
  | 0 => (s, 0)
  | k + 1 =>
    if hasDollar s then
      let r := expandLoop d (safeSubstitute d s) k
      (r.1, r.2 + 1)
    else (s, 0)

/-- `OptionsDict.expand_template(buffer_string, max_loops)`. -/
def expand_template (d : OptionsDict) (s : String) (maxLoops : Nat) :
    String :=
  (expandLoop d s maxLoops).1

/-- The number of substitution passes `expand_template` performs. -/
def expandCount (d : OptionsDict) (s : String) (maxLoops : Nat) : Nat :=
  (expandLoop d s maxLoops).2

/-- A `string.Template` identifier: `[_a-z][_a-z0-9]*`, case
insensitively. -/
def validIdent (l : List Char) : Bool :=
  match l with
  | [] => false
  | c :: cs => isIdStart c && cs.all isIdChar

/-- No `$` occurs among the characters. -/
def noDollar (l : List Char) : Bool := !(l.contains ('$'))

/-- The first character, if any, cannot extend an identifier. -/
def headNotId (l : List Char) : Bool :=
  match l with
  | [] => true
  | c :: _ => !(isIdChar c)

/-- The per-element result of `create_sequence` when its argument
checks pass: an existing dict is copied, given the entry
`\x7bsequence_key: str(el)\x7d`, and overlaid with the common entries;
a literal element yields a new dict named by the name format, storing
the original element value under the sequence key, again overlaid with
the common entries. -/
def seqElemSpec (key : String) (cl : Entries) (fmt : NameFormat) :
    SeqElem → OptionsDict
  | .odSE e => ⟨e.name, dictUpdate (alistSet e.entries key (.strV e.name)) cl⟩
  | el => ⟨applyNameFormat fmt el, dictUpdate [(key, elemValue el)] cl⟩

theorem alistGet_alistSet (l : Entries) (k : String) (v : Value)
    (k2 : String) :
    alistGet (alistSet l k v) k2 = if k2 = k then some v else alistGet l k2 := by
  induction l with
  | nil =>
    by_cases h : k2 = k
    · subst h; simp [alistSet, alistGet]
    · simp [alistSet, alistGet, h, Ne.symm h]
  | cons kv rest ih =>
    obtain ⟨k0, w⟩ := kv
    by_cases h0 : k0 = k
    · subst h0
      by_cases h2 : k2 = k0
      · subst h2; simp [alistSet, alistGet]
      · simp [alistSet, alistGet, h2, Ne.symm h2]
    · by_cases h2 : k2 = k0
      · have hne : ¬k2 = k := by rw [h2]; exact fun hh => h0 hh
        simp [alistSet, alistGet, h0, h2.symm, hne]
      · simp [alistSet, alistGet, h0, Ne.symm h2, h2, ih]

theorem alistGet_of_not_mem (l : Entries) (k : String)
    (h : k ∉ l.map Prod.fst) : alistGet l k = none := by
  induction l with
  | nil => rfl
  | cons kv rest ih =>
    simp only [List.map_cons, List.mem_cons] at h
    push_neg at h
    obtain ⟨k0, w⟩ := kv
    have hne : ¬k0 = k := fun hh => h.1 hh.symm
    simpa [alistGet, hne] using ih h.2

theorem alistGet_dictUpdate (b a : Entries) (k : String)
    (h : (b.map Prod.fst).Nodup) :
    alistGet (dictUpdate a b) k = optOr (alistGet b k) (alistGet a k) := by
  induction b generalizing a with
  | nil => simp [dictUpdate, alistGet, optOr]
  | cons kv rest ih =>
    obtain ⟨k0, v0⟩ := kv
    simp only [List.map_cons, List.nodup_cons] at h
    by_cases hk : k = k0
    · subst hk
      have hnone : alistGet rest k = none :=
        alistGet_of_not_mem rest k h.1
      simp [dictUpdate, ih _ h.2, alistGet, hnone, optOr,
        alistGet_alistSet]
    · simp [dictUpdate, ih _ h.2, alistGet, optOr,
        alistGet_alistSet, hk, Ne.symm hk]

/-- C1 (code_bug evidence): on the dict `\x7bk: lambda d: (lambda d2:
42)\x7d`, `__getitem__` invokes the stored dynamic entry once and
returns its result even though that result is itself a bare function —
the lookup does not repeat the check, contradicting both the claim and
the code's own comment, and no resolution guard exists. -/
theorem C1_lookup_returns_bare_function :
    getItem ⟨"d", [("k", .funcV (.funcV (.intV 42)))]⟩ ("k")
      = some (.funcV (.intV 42))
    ∧ isFunctionType (.funcV (.intV 42)) = true :=
  ⟨rfl, rfl⟩

/-- C2: `combine(a, b)` names the result by joining `str(a)` and
`str(b)` with the separator when both are non-empty and by the
non-empty one otherwise, and its entries are `a`'s overlaid by `b`'s
with `b` winning every key conflict; the operation builds a fresh dict
(the embedding is pure, so neither operand is modified). -/
theorem C2_combine_name_and_entries (a b : OptionsDict) :
    (a.name ≠ "" → b.name ≠ "" →
      (pyAdd a b).name = a.name ++ "_" ++ b.name)
    ∧ (a.name = "" → (pyAdd a b).name = b.name)
    ∧ (b.name = "" → (pyAdd a b).name = a.name)
    ∧ ((b.entries.map Prod.fst).Nodup →
        ∀ k, alistGet (pyAdd a b).entries k
          = optOr (alistGet b.entries k) (alistGet a.entries k)) := by
  refine ⟨?_, ?_, ?_, ?_⟩
  · intro ha hb; simp [pyAdd, addOther, name_separator, ha, hb]
  · intro ha; simp [pyAdd, addOther, ha]
  · intro hb; simp [pyAdd, addOther, hb]
  · intro hnd k
    simp [pyAdd, addOther]
    exact alistGet_dictUpdate b.entries a.entries k hnd

/-- C2 witness: the combination of two concrete named dicts. -/
theorem C2_combine_witness :
    (pyAdd ⟨"A", [("x", .intV 1), ("y", .intV 2)]⟩
        ⟨"B", [("y", .intV 9)]⟩).name = "A" ++ "_" ++ "B"
    ∧ alistGet (pyAdd ⟨"A", [("x", .intV 1), ("y", .intV 2)]⟩
        ⟨"B", [("y", .intV 9)]⟩).entries ("y")
      = optOr (alistGet [("y", .intV 9)] ("y"))
          (alistGet [("x", .intV 1), ("y", .intV 2)] ("y")) :=
  ⟨(C2_combine_name_and_entries ⟨"A", [("x", .intV 1), ("y", .intV 2)]⟩
      ⟨"B", [("y", .intV 9)]⟩).1 (by decide) (by decide),
   (C2_combine_name_and_entries ⟨"A", [("x", .intV 1), ("y", .intV 2)]⟩
      ⟨"B", [("y", .intV 9)]⟩).2.2.2 (by decide) ("y")⟩

/-- C6: a stored `CallableEntry` is not a `FunctionType`, so lookup
returns the wrapper itself unevaluated, and calling the wrapper with
any positional and keyword arguments afterwards returns the wrapped
function applied to exactly those arguments. -/
theorem C6_opaque_wrapper_lookup (d : OptionsDict) (k : String)
    (f : CallFn) (h : alistGet d.entries k = some (.callableV f)) :
    getItem d k = some (.callableV f)
    ∧ ∀ args kwargs, callableCall f args kwargs = evalCallFn f args kwargs := by
  refine ⟨?_, fun args kwargs => rfl⟩
  simp [getItem, h]

/-- C6 witness: the test-suite's dict with `my_func` wrapping
`lambda a, b=1: a + b`: lookup keeps the wrapper, which then computes
`1 + 1 = 2` and `1 + 2 = 3`. -/
theorem C6_opaque_wrapper_witness :
    getItem ⟨"", [("my_func", .callableV .addBDefault)]⟩ ("my_func")
      = some (.callableV .addBDefault)
    ∧ callableCall .addBDefault [.intV 1] [] = some (.intV 2)
    ∧ callableCall .addBDefault [.intV 1, .intV 2] [] = some (.intV 3) :=
  ⟨(C6_opaque_wrapper_lookup ⟨"", [("my_func", .callableV .addBDefault)]⟩
      ("my_func") .addBDefault rfl).1, rfl, rfl⟩

/-- C10: iterating an `OptionsDict` (`__iter__` is `yield self`)
produces exactly one element, the dict itself. -/
theorem C10_iter_yields_self (d : OptionsDict) :
    odIter d = [d] ∧ (odIter d).length = 1 :=
  ⟨rfl, rfl⟩

/-- C7 counterexample: the integer `5` is string-coercible
(`str(5) = "5"`), yet the constructor rejects it — construction does
not succeed for every string-coercible name. -/
theorem C7_construct_counterexample :
    odConstruct (.intN 5) (.dictE [])
      = .error ⟨"name argument must be a string (or None)."⟩
    ∧ pyStrNameArg (.intN 5) = "5" :=
  ⟨rfl, rfl⟩

/-- C7 amended: construction succeeds exactly when the name is falsy
or a string and the entries are a dict, failing with
`OptionsDictException` otherwise; on success the dict's string form is
the given name, the empty string when the name was falsy. -/
theorem C7_construct_amended :
    (∀ name entries, (∃ d, odConstruct name entries = .ok d) ↔
        ((nameFalsy name = true ∨ ∃ s, name = NameArg.strN s)
          ∧ ∃ l, entries = EntriesArg.dictE l))
    ∧ (∀ name l, nameFalsy name = true →
        odConstruct name (.dictE l) = .ok ⟨"", l⟩ ∧ odStr ⟨"", l⟩ = "")
    ∧ (∀ s l, odConstruct (.strN s) (.dictE l) = .ok ⟨odStr ⟨s, l⟩, l⟩
        ∧ odStr ⟨s, l⟩ = s) := by
  refine ⟨?_, ?_, ?_⟩
  · intro name entries
    constructor
    · rintro ⟨d, hd⟩
      cases name with
      | noneN =>
        cases entries with
        | dictE l => exact ⟨Or.inl rfl, l, rfl⟩
        | strE s => simp [odConstruct, nameFalsy] at hd
      | strN s =>
        cases entries with
        | dictE l => exact ⟨Or.inr ⟨s, rfl⟩, l, rfl⟩
        | strE s2 => by_cases hs : s = "" <;>
            simp [odConstruct, nameFalsy, hs] at hd
      | intN n =>
        cases entries with
        | dictE l =>
          by_cases hn : n = 0
          · exact ⟨Or.inl (by simp [nameFalsy, hn]), l, rfl⟩
          · simp [odConstruct, nameFalsy, hn] at hd
        | strE s2 => by_cases hn : n = 0 <;>
            simp [odConstruct, nameFalsy, hn] at hd
    · rintro ⟨hname, l, rfl⟩
      rcases hname with hf | ⟨s, rfl⟩
      · exact ⟨⟨"", l⟩, by simp [odConstruct, hf]⟩
      · by_cases hs : s = ""
        · exact ⟨⟨"", l⟩, by simp [odConstruct, nameFalsy, hs]⟩
        · exact ⟨⟨s, l⟩, by simp [odConstruct, nameFalsy, hs]⟩
  · intro name l hf
    exact ⟨by simp [odConstruct, hf], rfl⟩
  · intro s l
    by_cases hs : s = ""
    · subst hs; exact ⟨by simp [odConstruct, nameFalsy, odStr], rfl⟩
    · exact ⟨by simp [odConstruct, nameFalsy, odStr, hs], rfl⟩

/-- C7 witness: a concrete string name and dict entries construct
successfully, with the string form equal to the name; a falsy name
yields the empty string form. -/
theorem C7_construct_witness :
    (odConstruct (.strN "abc") (.dictE [("a", .intV 1)])
        = .ok ⟨odStr ⟨"abc", [("a", .intV 1)]⟩, [("a", .intV 1)]⟩
      ∧ odStr ⟨"abc", [("a", .intV 1)]⟩ = "abc")
    ∧ (odConstruct .noneN (.dictE []) = .ok ⟨"", []⟩ ∧ odStr ⟨"", []⟩ = "") :=
  ⟨C7_construct_amended.2.2 ("abc") [("a", .intV 1)],
   C7_construct_amended.2.1 .noneN [] (by decide)⟩

theorem foldl_sumStep_odS (ds : List OptionsDict) (a : OptionsDict) :
    List.foldl sumStep (.odS a) ds = .odS (List.foldl pyAdd a ds) := by
  induction ds generalizing a with
  | nil => rfl
  | cons d rest ih => simpa [sumStep] using ih (pyAdd a d)

/-- C9: a falsy left operand of `+` (`0`, `None`, an empty dict) makes
`__radd__` return the dict unchanged, a truthy plain-dict left operand
is handed to the ordinary name-joining merge, and consequently Python
`sum` over a non-empty list of dicts starting from `0` folds them with
`combine`. -/
theorem C9_radd_falsy_identity :
    (∀ (d : OptionsDict) (other : RaddArg), raddTruthy other = false →
      pyRadd other d = .ok d)
    ∧ (∀ (d : OptionsDict) (l : Entries), l ≠ [] →
      pyRadd (.dictR l) d = .ok (addOther d (pyStrDict l) l))
    ∧ (∀ (d : OptionsDict) (ds : List OptionsDict),
      pySum (d :: ds) = .odS (List.foldl pyAdd d ds)) := by
  refine ⟨?_, ?_, ?_⟩
  · intro d other h; simp [pyRadd, h]
  · intro d l h; simp [pyRadd, raddTruthy, h]
  · intro d ds; simpa [pySum, sumStep] using foldl_sumStep_odS ds d

/-- C9 witness: `0`, `None` and the empty dict act as left identities
on a concrete dict, a non-empty plain dict merges, and `sum` of two
dicts folds with `combine`. -/
theorem C9_radd_witness :
    pyRadd (.intR 0) ⟨"N", [("a", .intV 1)]⟩ = .ok ⟨"N", [("a", .intV 1)]⟩
    ∧ pyRadd .noneR ⟨"N", [("a", .intV 1)]⟩ = .ok ⟨"N", [("a", .intV 1)]⟩
    ∧ pyRadd (.dictR []) ⟨"N", [("a", .intV 1)]⟩ = .ok ⟨"N", [("a", .intV 1)]⟩
    ∧ pyRadd (.dictR [("b", .intV 2)]) ⟨"N", []⟩
      = .ok (addOther ⟨"N", []⟩ (pyStrDict [("b", .intV 2)]) [("b", .intV 2)])
    ∧ pySum [⟨"A", []⟩, ⟨"B", []⟩]
      = .odS (List.foldl pyAdd ⟨"A", []⟩ [⟨"B", []⟩]) :=
  ⟨C9_radd_falsy_identity.1 ⟨"N", [("a", .intV 1)]⟩ (.intR 0) (by decide),
   C9_radd_falsy_identity.1 ⟨"N", [("a", .intV 1)]⟩ .noneR (by decide),
   C9_radd_falsy_identity.1 ⟨"N", [("a", .intV 1)]⟩ (.dictR []) (by decide),
   C9_radd_falsy_identity.2.1 ⟨"N", []⟩ [("b", .intV 2)] (by decide),
   C9_radd_falsy_identity.2.2 ⟨"A", []⟩ [⟨"B", []⟩]⟩

/-- C3 counterexample: with an empty element list the loop body —
which contains both argument checks — never runs, so a non-mapping
`common_entries` is accepted and the call returns the empty list
instead of failing. -/
theorem C3_sequence_empty_counterexample :
    create_sequence ("A") [] (.strE "foo") (.templateF "\x7b\x7d")
      = .ok [] :=
  rfl

/-- C3 amended: the argument checks run once per element, so they fire
only for non-empty element lists — a non-mapping `common_entries`
fails on the first element, and an unusable `name_format` fails
exactly when some element is not already an `OptionsDict`; with no
elements the call always succeeds. -/
theorem C3_sequence_argument_checks :
    (∀ key common fmt, create_sequence key [] common fmt = .ok [])
    ∧ (∀ key el els s fmt,
        ∃ e, create_sequence key (el :: els) (.strE s) fmt = .error e)
    ∧ (∀ key elements cl,
        (∃ e, create_sequence key elements (.dictE cl) .badF = .error e)
          ↔ elements.any (fun el => !(isOD el)) = true) := by
  refine ⟨fun key common fmt => rfl, ?_, ?_⟩
  · intro key el els s fmt
    cases el with
    | odSE e => exact ⟨⟨"common_entries argument must be a dictionary."⟩, rfl⟩
    | intSE n =>
      cases fmt with
      | callableF f =>
          exact ⟨⟨"common_entries argument must be a dictionary."⟩, rfl⟩
      | templateF t =>
          exact ⟨⟨"common_entries argument must be a dictionary."⟩, rfl⟩
      | badF =>
          exact ⟨⟨"name_formatter must be a callable or a format string."⟩, rfl⟩
    | strSE s2 =>
      cases fmt with
      | callableF f =>
          exact ⟨⟨"common_entries argument must be a dictionary."⟩, rfl⟩
      | templateF t =>
          exact ⟨⟨"common_entries argument must be a dictionary."⟩, rfl⟩
      | badF =>
          exact ⟨⟨"name_formatter must be a callable or a format string."⟩, rfl⟩
  · intro key elements cl
    induction elements with
    | nil => simp [create_sequence]
    | cons el rest ih =>
      cases el with
      | odSE e =>
        simp only [create_sequence, seqStep, seqElemToOD, List.any_cons,
          isOD, Bool.not_true, Bool.false_or]
        constructor
        · rintro ⟨er, her⟩
          rcases hrest : create_sequence key rest (.dictE cl) .badF with e2 | l2
          · exact ih.mp ⟨e2, hrest⟩
          · rw [hrest] at her; simp at her
        · intro hany
          rcases ih.mpr hany with ⟨e2, he2⟩
          rw [he2]
          exact ⟨e2, rfl⟩
      | intSE n =>
        simp [create_sequence, seqStep, seqElemToOD, isOD]
      | strSE s2 =>
        simp [create_sequence, seqStep, seqElemToOD, isOD]

/-- C3 witness: one integer element with a non-mapping `common_entries`
raises, and an unusable `name_format` raises exactly when an element
is a literal. -/
theorem C3_sequence_checks_witness :
    (∃ e, create_sequence ("A") [.intSE 0] (.strE "foo") (.templateF "\x7b\x7d")
      = .error e)
    ∧ ((∃ e, create_sequence ("A") [.intSE 1] (.dictE []) .badF = .error e)
        ↔ [SeqElem.intSE 1].any (fun el => !(isOD el)) = true) :=
  ⟨C3_sequence_argument_checks.2.1 ("A") (.intSE 0) [] ("foo")
      (.templateF "\x7b\x7d"),
   C3_sequence_argument_checks.2.2 ("A") [.intSE 1] []⟩

/-- C5: when `common_entries` is a mapping and `name_format` usable,
`create_sequence` converts each element — an existing dict is copied
with the entry `\x7bsequence_key: str(el)\x7d` added, a literal yields
a fresh dict named by the format holding the original value under the
sequence key — and overlays the common entries on every result;
in particular `sequence("k", [2, 5, 10], name_format="A\x7b:02\x7d")`
produces dicts named `A02`, `A05`, `A10` whose `k` entries are the
numbers `2`, `5`, `10`. -/
theorem C5_sequence_element_conversion :
    (∀ key elements cl fmt, fmtValid fmt = true →
      create_sequence key elements (.dictE cl) fmt
        = .ok (elements.map (seqElemSpec key cl fmt)))
    ∧ create_sequence ("k") [.intSE 2, .intSE 5, .intSE 10] (.dictE [])
        (.templateF "A\x7b:02\x7d")
      = .ok [⟨"A02", [("k", .intV 2)]⟩, ⟨"A05", [("k", .intV 5)]⟩,
             ⟨"A10", [("k", .intV 10)]⟩] := by
  refine ⟨?_, by decide⟩
  intro key elements cl fmt hf
  induction elements with
  | nil => rfl
  | cons el rest ih =>
    cases el with
    | odSE e => simp [create_sequence, seqStep, seqElemToOD, ih, seqElemSpec]
    | intSE n =>
      cases fmt with
      | callableF f =>
        simp [create_sequence, seqStep, seqElemToOD, ih, seqElemSpec,
          applyNameFormat]
      | templateF t =>
        simp [create_sequence, seqStep, seqElemToOD, ih, seqElemSpec,
          applyNameFormat]
      | badF => simp [fmtValid] at hf
    | strSE s =>
      cases fmt with
      | callableF f =>
        simp [create_sequence, seqStep, seqElemToOD, ih, seqElemSpec,
          applyNameFormat]
      | templateF t =>
        simp [create_sequence, seqStep, seqElemToOD, ih, seqElemSpec,
          applyNameFormat]
      | badF => simp [fmtValid] at hf

/-- C5 witness: a sequence over an existing dict and a literal, as in
the repository's sequence test: the existing dict keeps its entries
and gains `k = "some_dict"`, the literal element stores the number
itself. -/
theorem C5_sequence_witness :
    create_sequence ("k")
        [.odSE ⟨"some_dict", [("foo", .strV "bar")]⟩, .intSE 1]
        (.dictE []) (.templateF "\x7b\x7d")
      = .ok (List.map
          (seqElemSpec ("k") [] (.templateF "\x7b\x7d"))
          [.odSE ⟨"some_dict", [("foo", .strV "bar")]⟩, .intSE 1])
    ∧ List.map (seqElemSpec ("k") [] (.templateF "\x7b\x7d"))
          [.odSE ⟨"some_dict", [("foo", .strV "bar")]⟩, .intSE 1]
      = [⟨"some_dict", [("foo", .strV "bar"), ("k", .strV "some_dict")]⟩,
         ⟨"1", [("k", .intV 1)]⟩] :=
  ⟨C5_sequence_element_conversion.1 ("k")
      [.odSE ⟨"some_dict", [("foo", .strV "bar")]⟩, .intSE 1] []
      (.templateF "\x7b\x7d") (by decide),
   by decide⟩

theorem subChars_nil (d : OptionsDict) : subChars d [] = [] := by
  simp [subChars]

theorem isIdStart_ne_dollar (c : Char) (h : isIdStart c = true) :
    ¬c = '$' := by
  intro hc; subst hc; exact absurd h (by decide)

theorem isIdStart_ne_braceOpen (c : Char) (h : isIdStart c = true) :
    ¬c = braceOpen := by
  intro hc; subst hc; exact absurd h (by decide)

theorem isIdChar_of_isIdStart (c : Char) (h : isIdStart c = true) :
    isIdChar c = true := by
  simp only [isIdStart, Bool.or_eq_true] at h
  rcases h with h | h
  · simp [isIdChar, Char.isAlphanum, h]
  · simp [isIdChar, h]

theorem takeWhile_append_ident (xs t : List Char)
    (h1 : xs.all isIdChar = true) (h2 : headNotId t = true) :
    (xs ++ t).takeWhile isIdChar = xs ∧ (xs ++ t).dropWhile isIdChar = t := by
  induction xs with
  | nil =>
    cases t with
    | nil => simp [List.takeWhile, List.dropWhile]
    | cons c cs =>
      simp only [headNotId, Bool.not_eq_true'] at h2
      simp [List.takeWhile_cons, List.dropWhile_cons, h2]
  | cons x xs ih =>
    simp only [List.all_cons, Bool.and_eq_true] at h1
    have hih := ih h1.2
    simp [List.takeWhile_cons, List.dropWhile_cons, h1.1, hih.1, hih.2]

theorem subChars_cons_ne (d : OptionsDict) (c : Char) (cs : List Char)
    (h : ¬c = '$') : subChars d (c :: cs) = c :: subChars d cs := by
  rw [subChars.eq_def]; simp [h]

theorem noDollar_cons (c : Char) (cs : List Char) :
    noDollar (c :: cs) = (!(c = '$') && noDollar cs) := by
  by_cases h : c = '$'
  · simp [noDollar, List.contains_cons, h]
  · simp [noDollar, List.contains_cons, h, Ne.symm h]

theorem noDollar_append (a b : List Char) :
    noDollar (a ++ b) = (noDollar a && noDollar b) := by
  induction a with
  | nil => simp [noDollar]
  | cons c cs ih => simp [noDollar_cons, ih, Bool.and_assoc]

theorem subChars_of_noDollar (d : OptionsDict) (l : List Char)
    (h : noDollar l = true) : subChars d l = l := by
  induction l with
  | nil => exact subChars_nil d
  | cons c cs ih =>
    rw [noDollar_cons] at h
    simp only [Bool.and_eq_true, Bool.not_eq_true'] at h
    have hc : ¬c = '$' := by simpa using h.1
    rw [subChars_cons_ne d c cs hc, ih h.2]

theorem subChars_named_token (d : OptionsDict) (k0 : Char)
    (krest t : List Char) (h0 : isIdStart k0 = true)
    (h1 : krest.all isIdChar = true) (h2 : headNotId t = true) :
    subChars d ('$' :: k0 :: (krest ++ t))
      = tokenNamed d (k0 :: krest) ++ subChars d t := by
  have hne := isIdStart_ne_dollar k0 h0
  have hnb := isIdStart_ne_braceOpen k0 h0
  have hsplit := takeWhile_append_ident krest t h1 h2
  rw [subChars.eq_def]
  simp [hne, hnb, h0, hsplit.1, hsplit.2]

theorem subChars_braced_token (d : OptionsDict) (k0 : Char)
    (krest t : List Char) (h0 : isIdStart k0 = true)
    (h1 : krest.all isIdChar = true) :
    subChars d ('$' :: braceOpen :: ((k0 :: krest) ++ (braceClose :: t)))
      = tokenBraced d (k0 :: krest) ++ subChars d t := by
  have hall : (k0 :: krest).all isIdChar = true := by
    simp [List.all_cons, isIdChar_of_isIdStart k0 h0, h1]
  have hbc : isIdChar braceClose = false := by decide
  have hba : headNotId (braceClose :: t) = true := by
    simp [headNotId, hbc]
  have hsplit := takeWhile_append_ident (k0 :: krest) (braceClose :: t) hall hba
  have hno : ¬braceOpen = '$' := by decide
  have ht : List.takeWhile isIdChar (k0 :: (krest ++ braceClose :: t))
      = k0 :: krest := by simpa using hsplit.1
  have hd : List.dropWhile isIdChar (k0 :: (krest ++ braceClose :: t))
      = braceClose :: t := by simpa using hsplit.2
  rw [subChars.eq_def]
  simp [hno, ht, hd, h0]

theorem expandLoop_stop (d : OptionsDict) (s : String)
    (h : hasDollar s = false) (m : Nat) : expandLoop d s m = (s, 0) := by
  cases m <;> simp [expandLoop, h]

theorem expandLoop_count_le (d : OptionsDict) (s : String) (m : Nat) :
    (expandLoop d s m).2 ≤ m := by
  induction m generalizing s with
  | zero => simp [expandLoop]
  | succ k ih =>
    by_cases h : hasDollar s
    · simpa [expandLoop, h] using Nat.succ_le_succ (ih (safeSubstitute d s))
    · simp [expandLoop, h]

theorem expandLoop_one_pass (d : OptionsDict) (s : String)
    (h1 : hasDollar s = true) (h2 : hasDollar (safeSubstitute d s) = false)
    (k : Nat) : expandLoop d s (k + 1) = (safeSubstitute d s, 1) := by
  simp [expandLoop, h1, expandLoop_stop d (safeSubstitute d s) h2 k]

theorem expandLoop_fix (d : OptionsDict) (s : String)
    (hfix : safeSubstitute d s = s) (hd : hasDollar s = true) (m : Nat) :
    expandLoop d s m = (s, m) := by
  induction m with
  | zero => rfl
  | succ k ih => simp [expandLoop, hd, hfix, ih]

theorem hasDollar_mk_cons_dollar (l : List Char) :
    hasDollar (String.mk ('$' :: l)) = true := by
  simp [hasDollar, List.contains_cons]

theorem hasDollar_mk_of_noDollar (l : List Char) (h : noDollar l = true) :
    hasDollar (String.mk l) = false := by
  simp only [noDollar, Bool.not_eq_true'] at h
  simpa [hasDollar] using h

/-- C4: `expand_template` always terminates and performs at most
`max_loops` substitution passes — the loop counter increases once per
pass and the guard `n < max_loops` bounds it; on the self-referential
dict `\x7bfoo: "$foo"\x7d` the substitution of `"$foo"` reproduces the
buffer and the loop halts after exactly the default `5` passes instead
of running forever. -/
theorem C4_expand_template_pass_bound :
    (∀ (d : OptionsDict) (s : String) (maxLoops : Nat),
      expandCount d s maxLoops ≤ maxLoops)
    ∧ expandCount ⟨"", [("foo", .strV "$foo")]⟩ ("$foo")
        template_expansion_max_loops = template_expansion_max_loops := by
  constructor
  · intro d s m; exact expandLoop_count_le d s m
  · have htok := subChars_named_token ⟨"", [("foo", .strV "$foo")]⟩ 'f'
      ['o', 'o'] [] (by decide) (by decide) (by decide)
    have hfix : safeSubstitute ⟨"", [("foo", .strV "$foo")]⟩ ("$foo")
        = "$foo" := by
      show String.mk (subChars ⟨"", [("foo", .strV "$foo")]⟩
        (String.data ("$foo"))) = "$foo"
      have hdata : String.data ("$foo") = '$' :: 'f' :: (['o', 'o'] ++ []) := by
        decide
      rw [hdata, htok, subChars_nil]
      decide
    have hd : hasDollar ("$foo") = true := by decide
    simp [expandCount, template_expansion_max_loops,
      expandLoop_fix ⟨"", [("foo", .strV "$foo")]⟩ ("$foo") hfix hd 5]

/-- C8: a `$identifier` or `$\x7bidentifier\x7d` token whose identifier
is a key of the dict is replaced by that key's looked-up value, while
a token with no corresponding entry passes through verbatim; in
particular expanding `"$foo-bar"` on a dict mapping `foo` to `"X"`
yields `"X-bar"`. -/
theorem C8_template_token_substitution :
    (∀ (d : OptionsDict) (k0 : Char) (krest : List Char) (v : Value)
        (t : List Char) (m : Nat),
      isIdStart k0 = true → krest.all isIdChar = true →
      headNotId t = true → noDollar t = true →
      getItem d (String.mk (k0 :: krest)) = some v →
      noDollar (String.data (pyStrValue v)) = true → 1 ≤ m →
      expand_template d (String.mk ('$' :: k0 :: (krest ++ t))) m
        = pyStrValue v ++ String.mk t)
    ∧ (∀ (d : OptionsDict) (k0 : Char) (krest : List Char) (v : Value)
        (t : List Char) (m : Nat),
      isIdStart k0 = true → krest.all isIdChar = true →
      noDollar t = true →
      getItem d (String.mk (k0 :: krest)) = some v →
      noDollar (String.data (pyStrValue v)) = true → 1 ≤ m →
      expand_template d
          (String.mk ('$' :: braceOpen :: ((k0 :: krest) ++ (braceClose :: t))))
          m
        = pyStrValue v ++ String.mk t)
    ∧ (∀ (d : OptionsDict) (k0 : Char) (krest t : List Char) (m : Nat),
      isIdStart k0 = true → krest.all isIdChar = true →
      headNotId t = true → noDollar t = true →
      getItem d (String.mk (k0 :: krest)) = none →
      expand_template d (String.mk ('$' :: k0 :: (krest ++ t))) m
        = String.mk ('$' :: k0 :: (krest ++ t)))
    ∧ expand_template ⟨"", [("foo", .strV "X")]⟩ ("$foo-bar") 5 = "X-bar" := by
  have hA : ∀ (d : OptionsDict) (k0 : Char) (krest : List Char) (v : Value)
      (t : List Char) (m : Nat),
      isIdStart k0 = true → krest.all isIdChar = true →
      headNotId t = true → noDollar t = true →
      getItem d (String.mk (k0 :: krest)) = some v →
      noDollar (String.data (pyStrValue v)) = true → 1 ≤ m →
      expand_template d (String.mk ('$' :: k0 :: (krest ++ t))) m
        = pyStrValue v ++ String.mk t := by
    intro d k0 krest v t m h0 h1 h2 h3 hget h4 hm
    obtain ⟨k, rfl⟩ : ∃ k, m = k + 1 := ⟨m - 1, by omega⟩
    have htok := subChars_named_token d k0 krest t h0 h1 h2
    have hs1 : safeSubstitute d (String.mk ('$' :: k0 :: (krest ++ t)))
        = String.mk (String.data (pyStrValue v) ++ t) := by
      show String.mk (subChars d ('$' :: k0 :: (krest ++ t))) = _
      rw [htok, subChars_of_noDollar d t h3]
      simp [tokenNamed, hget]
    have hd1 := hasDollar_mk_cons_dollar (k0 :: (krest ++ t))
    have hd2 : hasDollar (safeSubstitute d
        (String.mk ('$' :: k0 :: (krest ++ t)))) = false := by
      rw [hs1]
      exact hasDollar_mk_of_noDollar _ (by simp [noDollar_append, h3, h4])
    have hloop := expandLoop_one_pass d
      (String.mk ('$' :: k0 :: (krest ++ t))) hd1 hd2 k
    simp [expand_template, hloop, hs1]
    rfl
  have hB : ∀ (d : OptionsDict) (k0 : Char) (krest : List Char) (v : Value)
      (t : List Char) (m : Nat),
      isIdStart k0 = true → krest.all isIdChar = true →
      noDollar t = true →
      getItem d (String.mk (k0 :: krest)) = some v →
      noDollar (String.data (pyStrValue v)) = true → 1 ≤ m →
      expand_template d
          (String.mk ('$' :: braceOpen :: ((k0 :: krest) ++ (braceClose :: t))))
          m
        = pyStrValue v ++ String.mk t := by
    intro d k0 krest v t m h0 h1 h3 hget h4 hm
    obtain ⟨k, rfl⟩ : ∃ k, m = k + 1 := ⟨m - 1, by omega⟩
    have htok := subChars_braced_token d k0 krest t h0 h1
    have hs1 : safeSubstitute d
        (String.mk ('$' :: braceOpen :: ((k0 :: krest) ++ (braceClose :: t))))
        = String.mk (String.data (pyStrValue v) ++ t) := by
      show String.mk (subChars d
        ('$' :: braceOpen :: ((k0 :: krest) ++ (braceClose :: t)))) = _
      rw [htok, subChars_of_noDollar d t h3]
      simp [tokenBraced, hget]
    have hd1 := hasDollar_mk_cons_dollar
      (braceOpen :: ((k0 :: krest) ++ (braceClose :: t)))
    have hd2 : hasDollar (safeSubstitute d
        (String.mk ('$' :: braceOpen :: ((k0 :: krest) ++ (braceClose :: t)))))
        = false := by
      rw [hs1]
      exact hasDollar_mk_of_noDollar _ (by simp [noDollar_append, h3, h4])
    have hloop := expandLoop_one_pass d
      (String.mk ('$' :: braceOpen :: ((k0 :: krest) ++ (braceClose :: t))))
      hd1 hd2 k
    simp only [List.cons_append] at hloop hs1
    simp [expand_template, hloop, hs1]
    rfl
  have hC : ∀ (d : OptionsDict) (k0 : Char) (krest t : List Char) (m : Nat),
      isIdStart k0 = true → krest.all isIdChar = true →
      headNotId t = true → noDollar t = true →
      getItem d (String.mk (k0 :: krest)) = none →
      expand_template d (String.mk ('$' :: k0 :: (krest ++ t))) m
        = String.mk ('$' :: k0 :: (krest ++ t)) := by
    intro d k0 krest t m h0 h1 h2 h3 hget
    have htok := subChars_named_token d k0 krest t h0 h1 h2
    have hfix : safeSubstitute d (String.mk ('$' :: k0 :: (krest ++ t)))
        = String.mk ('$' :: k0 :: (krest ++ t)) := by
      show String.mk (subChars d ('$' :: k0 :: (krest ++ t))) = _
      rw [htok, subChars_of_noDollar d t h3]
      simp [tokenNamed, hget]
    have hd1 := hasDollar_mk_cons_dollar (k0 :: (krest ++ t))
    simp [expand_template,
      expandLoop_fix d (String.mk ('$' :: k0 :: (krest ++ t))) hfix hd1 m]
  refine ⟨hA, hB, hC, ?_⟩
  have h := hA ⟨"", [("foo", .strV "X")]⟩ 'f' ['o', 'o'] (.strV "X")
    (String.data ("-bar")) 5 (by decide) (by decide) (by decide) (by decide)
    (by decide) (by decide) (by decide)
  have e1 : String.mk ('$' :: 'f' :: (['o', 'o'] ++ String.data ("-bar")))
      = "$foo-bar" := by decide
  have e2 : pyStrValue (.strV "X") ++ String.mk (String.data ("-bar"))
      = "X-bar" := by decide
  rw [e1, e2] at h
  exact h

/-- C8 witness: the braced form `$\x7bfoo\x7d-bar` also substitutes on
a concrete dict, and an identifier with no entry passes through
verbatim. -/
theorem C8_template_witness :
    expand_template ⟨"", [("foo", .strV "X")]⟩ ("$\x7bfoo\x7d-bar") 5 = "X-bar"
    ∧ expand_template ⟨"", []⟩ ("$baz-1") 5 = "$baz-1" := by
  constructor
  · have h := C8_template_token_substitution.2.1 ⟨"", [("foo", .strV "X")]⟩
      'f' ['o', 'o'] (.strV "X") (String.data ("-bar")) 5 (by decide)
      (by decide) (by decide) (by decide) (by decide) (by decide)
    have e1 : String.mk ('$' :: braceOpen ::
        (('f' :: ['o', 'o']) ++ (braceClose :: String.data ("-bar"))))
        = "$\x7bfoo\x7d-bar" := by decide
    have e2 : pyStrValue (.strV "X") ++ String.mk (String.data ("-bar"))
        = "X-bar" := by decide
    rw [e1, e2] at h
    exact h
  · have h := C8_template_token_substitution.2.2.1 ⟨"", []⟩
      'b' ['a', 'z'] (String.data ("-1")) 5 (by decide) (by decide)
      (by decide) (by decide) (by decide)
    have e1 : String.mk ('$' :: 'b' :: (['a', 'z'] ++ String.data ("-1")))
        = "$baz-1" := by decide
    rw [e1] at h
    exact h

end Opiter
